import Mathlib

/-!
# Verification of the bitcoin-sdk crypto/serialization core

Shallow embedding of `src/crypto.rs` and `src/serialization.rs`.
Bytes are `Nat` values (< 256 where it matters); machine arithmetic is
modelled with explicit `% 2^w`.  Fallible Rust functions returning
`anyhow::Result` are modelled with `Except String`, keeping the exact
error message strings of the source.  A Rust panic (an `unwrap` or a
slice-length fault) is modelled by `Option`, with `none` standing for
the panic.
-/

set_option maxHeartbeats 1000000
set_option maxRecDepth 100000

namespace BitcoinSdk

/-! ## Byte and word helpers -/

/-- Big-endian value of a digit list in base `b`. -/
def beVal (b : Nat) (l : List Nat) : Nat :=
  l.foldl (fun acc d => acc * b + d) 0

/-- `2 ^ 32`, the modulus of 32-bit machine arithmetic. -/
def U32 : Nat := 2 ^ 32

/-- 32-bit rotate right. -/
def rotr (n x : Nat) : Nat := ((x >>> n) ||| (x <<< (32 - n))) % U32

/-- Split a list into chunks of `n + 1` elements (the last chunk may be
shorter). -/
def chunksOf (n : Nat) : List Nat → List (List Nat)
  | [] => []
  | x :: xs => (x :: xs).take (n + 1) :: chunksOf n ((x :: xs).drop (n + 1))
  termination_by l => l.length
  decreasing_by simp [List.length_drop]; omega

/-- The four big-endian bytes of a 32-bit word. -/
def wordBE4 (w : Nat) : List Nat :=
  [w / 2 ^ 24 % 256, w / 2 ^ 16 % 256, w / 2 ^ 8 % 256, w % 256]

/-- The eight big-endian bytes of a 64-bit word. -/
def lenBE8 (n : Nat) : List Nat :=
  [n / 2 ^ 56 % 256, n / 2 ^ 48 % 256, n / 2 ^ 40 % 256, n / 2 ^ 32 % 256,
   n / 2 ^ 24 % 256, n / 2 ^ 16 % 256, n / 2 ^ 8 % 256, n % 256]

/-! ## SHA-256

Modelled from the spec: the `sha2` crate used by `BitcoinCrypto::sha256`
is not part of this repository; the definitions below follow the
FIPS 180-4 description of SHA-256 that the crate implements. -/

/-- The 64 round constants, here in decimal (fractional parts of the
cube roots of the first 64 primes). -/
def sha256K : List Nat :=
  [1116352408, 1899447441, 3049323471, 3921009573, 961987163,
   1508970993, 2453635748, 2870763221, 3624381080, 310598401,
   607225278, 1426881987, 1925078388, 2162078206, 2614888103,
   3248222580, 3835390401, 4022224774, 264347078, 604807628,
   770255983, 1249150122, 1555081692, 1996064986, 2554220882,
   2821834349, 2952996808, 3210313671, 3336571891, 3584528711,
   113926993, 338241895, 666307205, 773529912, 1294757372,
   1396182291, 1695183700, 1986661051, 2177026350, 2456956037,
   2730485921, 2820302411, 3259730800, 3345764771, 3516065817,
   3600352804, 4094571909, 275423344, 430227734, 506948616,
   659060556, 883997877, 958139571, 1322822218, 1537002063,
   1747873779, 1955562222, 2024104815, 2227730452, 2361852424,
   2428436474, 2756734187, 3204031479, 3329325298]

/-- The eight 32-bit words of SHA-256 state. -/
structure Sha8 where
  a : Nat
  b : Nat
  c : Nat
  d : Nat
  e : Nat
  f : Nat
  g : Nat
  h : Nat
deriving Repr, DecidableEq

/-- The eight initial hash words, in decimal (fractional parts of the
square roots of the first 8 primes). -/
def sha256InitH : Sha8 :=
  ⟨1779033703, 3144134277, 1013904242, 2773480762,
   1359893119, 2600822924, 528734635, 1541459225⟩

def capSigma0 (x : Nat) : Nat := rotr 2 x ^^^ rotr 13 x ^^^ rotr 22 x

def capSigma1 (x : Nat) : Nat := rotr 6 x ^^^ rotr 11 x ^^^ rotr 25 x

def smallSigma0 (x : Nat) : Nat := rotr 7 x ^^^ rotr 18 x ^^^ (x >>> 3)

def smallSigma1 (x : Nat) : Nat := rotr 17 x ^^^ rotr 19 x ^^^ (x >>> 10)

/-- Extend the 16 message words with `k` further schedule words. -/
def schedExtend : Nat → List Nat → List Nat
  | 0, w => w
  | k + 1, w =>
      let n := w.length
      let next := (smallSigma1 (w.getD (n - 2) 0) + w.getD (n - 7) 0 +
                   smallSigma0 (w.getD (n - 15) 0) + w.getD (n - 16) 0) % U32
      schedExtend k (w ++ [next])

/-- One SHA-256 round, fed the round constant and the schedule word. -/
def sha256Round (s : Sha8) (kw : Nat × Nat) : Sha8 :=
  let ch := (s.e &&& s.f) ^^^ (((U32 - 1) ^^^ s.e) &&& s.g)
  let maj := (s.a &&& s.b) ^^^ (s.a &&& s.c) ^^^ (s.b &&& s.c)
  let t1 := (s.h + capSigma1 s.e + ch + kw.1 + kw.2) % U32
  let t2 := (capSigma0 s.a + maj) % U32
  ⟨(t1 + t2) % U32, s.a, s.b, s.c, (s.d + t1) % U32, s.e, s.f, s.g⟩

/-- Compress one 64-byte block (given as 16 words) into the state. -/
def sha256Compress (hst : Sha8) (ws : List Nat) : Sha8 :=
  let w := schedExtend 48 ws
  let s := (sha256K.zip w).foldl sha256Round hst
  ⟨(hst.a + s.a) % U32, (hst.b + s.b) % U32, (hst.c + s.c) % U32, (hst.d + s.d) % U32,
   (hst.e + s.e) % U32, (hst.f + s.f) % U32, (hst.g + s.g) % U32, (hst.h + s.h) % U32⟩

/-- Merkle–Damgård padding: `0x80`, zeros to 56 mod 64, 8-byte bit length. -/
def padBytes (msg : List Nat) : List Nat :=
  let L := msg.length
  msg ++ 0x80 :: List.replicate ((64 - (L + 9) % 64) % 64) 0 ++ lenBE8 (L * 8)

/-- SHA-256 of a byte list, as 32 bytes. -/
def sha256 (data : List Nat) : List Nat :=
  let blocks := chunksOf 63 (padBytes data)
  let hf := blocks.foldl (fun hst blk => sha256Compress hst ((chunksOf 3 blk).map (beVal 256)))
      sha256InitH
  wordBE4 hf.a ++ wordBE4 hf.b ++ wordBE4 hf.c ++ wordBE4 hf.d ++
  wordBE4 hf.e ++ wordBE4 hf.f ++ wordBE4 hf.g ++ wordBE4 hf.h

/-- `BitcoinCrypto::double_sha256` (src/crypto.rs:21): SHA-256 twice. -/
def double_sha256 (data : List Nat) : List Nat := sha256 (sha256 data)

theorem wordBE4_length (w : Nat) : (wordBE4 w).length = 4 := rfl

theorem wordBE4_lt (w : Nat) : ∀ b ∈ wordBE4 w, b < 256 := by
  simp only [wordBE4, List.mem_cons, List.not_mem_nil, or_false]
  rintro b (rfl | rfl | rfl | rfl) <;> omega

theorem sha256_length (data : List Nat) : (sha256 data).length = 32 := by
  simp [sha256, wordBE4]

theorem sha256_lt (data : List Nat) : ∀ b ∈ sha256 data, b < 256 := by
  intro b hb
  simp only [sha256, List.mem_append] at hb
  rcases hb with ((((((h | h) | h) | h) | h) | h) | h) | h <;>
    exact wordBE4_lt _ _ h

theorem double_sha256_length (data : List Nat) : (double_sha256 data).length = 32 :=
  sha256_length _

theorem double_sha256_lt (data : List Nat) : ∀ b ∈ double_sha256 data, b < 256 :=
  sha256_lt _

/-! ## Base58

Modelled from the spec: the `bs58` crate used by the repository is not
part of it; `bs58::encode` maps the big-endian base-256 value of the
input to base-58 digits, one leading output symbol `1` (digit 0) per
leading zero input byte, and `bs58::decode` is its inverse, failing on
any character outside the 58-symbol Bitcoin alphabet. -/

def b58Alphabet : List Char :=
  "123456789ABCDEFGHJKLMNPQRSTUVWXYZabcdefghijkmnopqrstuvwxyz".data

def b58Char (d : Nat) : Char := b58Alphabet.getD d '?'

def b58CharVal (c : Char) : Except String Nat :=
  let i := b58Alphabet.indexOf c
  if i < 58 then .ok i else .error "Base58 decode error: invalid character"

/-- Number of leading zero digits. -/
def countLeading0 (l : List Nat) : Nat := (l.takeWhile (· == 0)).length

/-- `bs58::encode(data).into_string()`. -/
def bs58_encode (data : List Nat) : String :=
  ⟨List.replicate (countLeading0 data) '1' ++
    ((Nat.digits 58 (beVal 256 data)).reverse.map b58Char)⟩

/-- Digit values of a character list, failing on a non-alphabet character. -/
def b58Vals : List Char → Except String (List Nat)
  | [] => .ok []
  | c :: cs => do
      let v ← b58CharVal c
      let vs ← b58Vals cs
      .ok (v :: vs)

/-- `bs58::decode(s).into_vec()`. -/
def bs58_decode (s : String) : Except String (List Nat) := do
  let vals ← b58Vals s.data
  .ok (List.replicate (countLeading0 vals) 0 ++
        (Nat.digits 256 (beVal 58 vals)).reverse)

/-! ## Base58Check (src/crypto.rs) -/

/-- `BitcoinCrypto::base58check_encode` (src/crypto.rs:259): append the
first four bytes of the double SHA-256 as checksum, then Base58. -/
def base58check_encode (data : List Nat) : String :=
  bs58_encode (data ++ (double_sha256 data).take 4)

/-- `BitcoinCrypto::decode_base58check` (src/crypto.rs:106). -/
def decode_base58check (encoded : String) : Except String (List Nat) := do
  let decoded ← bs58_decode encoded
  if decoded.length < 4 then .error "Data too short for checksum" else
  let payloadLen := decoded.length - 4
  let dta := decoded.take payloadLen
  let checksum := decoded.drop payloadLen
  if checksum ≠ (double_sha256 dta).take 4 then .error "Checksum mismatch"
  else .ok dta

/-- `BitcoinCrypto::base58check_decode` (src/crypto.rs:267): alias. -/
def base58check_decode (encoded : String) : Except String (List Nat) :=
  decode_base58check encoded

/-! ## Networks, addresses, WIF (src/types.rs, src/crypto.rs) -/

/-- `BitcoinClientType` (src/types.rs:6). -/
inductive BitcoinClientType
  | Mainnet
  | Testnet
  | Signet
  | Regtest
deriving Repr, DecidableEq

/-- `AddressType` (src/crypto.rs:273). -/
inductive AddressType
  | P2PKHMainnet
  | P2PKHTestnet
  | P2SHMainnet
  | P2SHTestnet
  | Bech32Mainnet
  | Bech32Testnet
  | Bech32Regtest
deriving Repr, DecidableEq

/-- Version byte for P2PKH addresses (src/crypto.rs:66). -/
def p2pkhVersionByte : BitcoinClientType → Nat
  | .Mainnet => 0x00
  | .Testnet | .Signet | .Regtest => 0x6f

/-- `BitcoinCrypto::hash160_to_p2pkh_address` (src/crypto.rs:62); the
source always returns `Ok`, so the model returns the string. -/
def hash160_to_p2pkh_address (hash160 : List Nat) (t : BitcoinClientType) : String :=
  let data := p2pkhVersionByte t :: hash160
  bs58_encode (data ++ (double_sha256 data).take 4)

/-- WIF version byte (src/crypto.rs:202). -/
def wifVersionByte : BitcoinClientType → Nat
  | .Mainnet => 0x80
  | .Testnet | .Signet | .Regtest => 0xef

/-- `BitcoinCrypto::private_key_to_wif` (src/crypto.rs:197); the source
always returns `Ok`, so the model returns the string. -/
def private_key_to_wif (private_key : List Nat) (compressed : Bool)
    (t : BitcoinClientType) : String :=
  let data := wifVersionByte t :: (private_key ++ if compressed then [0x01] else [])
  bs58_encode (data ++ (double_sha256 data).take 4)

/-- `BitcoinCrypto::wif_to_private_key` (src/crypto.rs:220). -/
def wif_to_private_key (wif : String) :
    Except String (List Nat × Bool × BitcoinClientType) := do
  let decoded ← decode_base58check wif
  if decoded.length < 2 then .error "WIF too short" else
  let version := decoded.getD 0 0
  if version = 0x80 then
    let compressed := decoded.length == 34 && decoded.getD 33 0 == 0x01
    let private_key := if compressed then (decoded.drop 1).take 32 else decoded.drop 1
    .ok (private_key, compressed, .Mainnet)
  else if version = 0xef then
    let compressed := decoded.length == 34 && decoded.getD 33 0 == 0x01
    let private_key := if compressed then (decoded.drop 1).take 32 else decoded.drop 1
    .ok (private_key, compressed, .Testnet)
  else .error "Unknown WIF version"

/-! ## Hex

Modelled from the spec: the `hex` crate is not part of the repository;
`hex::decode` accepts upper- or lower-case digits and fails on an odd
length or an invalid character, `hex::encode` emits lower case. -/

def hexVal (c : Char) : Option Nat :=
  if '0' ≤ c ∧ c ≤ '9' then some (c.toNat - '0'.toNat)
  else if 'a' ≤ c ∧ c ≤ 'f' then some (c.toNat - 'a'.toNat + 10)
  else if 'A' ≤ c ∧ c ≤ 'F' then some (c.toNat - 'A'.toNat + 10)
  else none

def hexPairs : List Char → Option (List Nat)
  | [] => some []
  | [_] => none
  | c1 :: c2 :: rest => do
      let hi ← hexVal c1
      let lo ← hexVal c2
      let r ← hexPairs rest
      some ((hi * 16 + lo) :: r)

def hex_decode (s : String) : Option (List Nat) := hexPairs s.data

def hexDigitChar (d : Nat) : Char := "0123456789abcdef".data.getD d '?'

def hex_encode (bytes : List Nat) : String :=
  ⟨(bytes.map (fun b => [hexDigitChar (b / 16), hexDigitChar (b % 16)])).flatten⟩

/-! ## Merkle root verification (src/serialization.rs) -/

/-- One leaf of `Serialization::verify_merkle_root`
(src/serialization.rs:85-91): hex-decode (`unwrap`, i.e. a panic on bad
hex, modelled as `none`), reverse, and copy into a 32-byte array
(`copy_from_slice`, i.e. a panic unless exactly 32 bytes). -/
def merkleLeaf (h : String) : Option (List Nat) := do
  let bytes ← hex_decode h
  let rev := bytes.reverse
  if rev.length = 32 then some rev else none

def merkleLeaves : List String → Option (List (List Nat))
  | [] => some []
  | h :: t => do
      let x ← merkleLeaf h
      let xs ← merkleLeaves t
      some (x :: xs)

/-- One pass of the pairing loop (src/serialization.rs:95-102): chunks
of two, the odd last element paired with itself. -/
def merkleStep : List (List Nat) → List (List Nat)
  | [] => []
  | [a] => [double_sha256 (a ++ a)]
  | a :: b :: rest => double_sha256 (a ++ b) :: merkleStep rest

theorem merkleStep_length : ∀ l : List (List Nat),
    (merkleStep l).length = (l.length + 1) / 2
  | [] => rfl
  | [_] => by simp [merkleStep]
  | _ :: _ :: rest => by
      simp only [merkleStep, List.length_cons, merkleStep_length rest]
      omega

/-- The `while hashes.len() > 1` loop (src/serialization.rs:93). -/
def merkleLoop (l : List (List Nat)) : List (List Nat) :=
  if 1 < l.length then merkleLoop (merkleStep l) else l
  termination_by l.length
  decreasing_by rw [merkleStep_length]; omega

/-- `Serialization::verify_merkle_root` (src/serialization.rs:78);
`none` models a panic in one of the leaf conversions or in the final
`hashes[0]` index. -/
def verify_merkle_root (tx_hashes : List String) (merkle_root : String) :
    Option Bool :=
  if tx_hashes.isEmpty then
    some (merkle_root ==
      "0000000000000000000000000000000000000000000000000000000000000000")
  else do
    let hashes ← merkleLeaves tx_hashes
    let calculated_root ← (merkleLoop hashes).head?
    some (hex_encode calculated_root.reverse == merkle_root)

/-! ## Variable-length integers (src/serialization.rs) -/

/-- `Serialization::deserialize_varint` (src/serialization.rs:27). -/
def deserialize_varint (data : List Nat) : Except String (Nat × Nat) :=
  match data with
  | [] => .error "Empty data for varint"
  | n :: rest =>
    if n < 0xFD then .ok (n, 1)
    else if n = 0xFD then
      if data.length < 3 then .error "Insufficient data for varint(16)"
      else .ok (rest.getD 0 0 + 2 ^ 8 * rest.getD 1 0, 3)
    else if n = 0xFE then
      if data.length < 5 then .error "Insufficient data for varint(32)"
      else .ok (rest.getD 0 0 + 2 ^ 8 * rest.getD 1 0 + 2 ^ 16 * rest.getD 2 0 +
                2 ^ 24 * rest.getD 3 0, 5)
    else if n = 0xFF then
      if data.length < 9 then .error "Insufficient data for varint(64)"
      else .ok (rest.getD 0 0 + 2 ^ 8 * rest.getD 1 0 + 2 ^ 16 * rest.getD 2 0 +
                2 ^ 24 * rest.getD 3 0 + 2 ^ 32 * rest.getD 4 0 +
                2 ^ 40 * rest.getD 5 0 + 2 ^ 48 * rest.getD 6 0 +
                2 ^ 56 * rest.getD 7 0, 9)
    else .error "Invalid varint prefix"

/-! ## Bech32

Modelled from the spec: the `bech32` crate (v0.9, original BIP-173
variant) is not part of the repository.  `ToBase32` regroups 8-bit
bytes into 5-bit values (padding the tail), and `bech32::encode`
validates the human-readable part, then emits
`hrp ++ "1" ++ data ++ checksum` over the 32-symbol charset. -/

def bech32Charset : List Char := "qpzry9x8gf2tvdw0s3jn54khce6mua7l".data

def bech32Gen : List Nat :=
  [0x3b6a57b2, 0x26508e6d, 0x1ea119fa, 0x3d4233dd, 0x2a1462b3]

def bech32PolymodStep (chk v : Nat) : Nat :=
  let b := chk >>> 25
  (List.range 5).foldl
    (fun c i => if (b >>> i) &&& 1 = 1 then c ^^^ bech32Gen.getD i 0 else c)
    (((chk &&& 0x1ffffff) <<< 5) ^^^ v)

def bech32Polymod (values : List Nat) : Nat := values.foldl bech32PolymodStep 1

def bech32HrpExpand (hrp : List Char) : List Nat :=
  hrp.map (fun c => c.toNat >>> 5) ++ 0 :: hrp.map (fun c => c.toNat &&& 31)

/-- The six 5-bit checksum values for the original (non-m) variant,
whose final constant is 1. -/
def bech32CreateChecksum (hrp : List Char) (data : List Nat) : List Nat :=
  let pm := bech32Polymod (bech32HrpExpand hrp ++ data ++ [0, 0, 0, 0, 0, 0]) ^^^ 1
  (List.range 6).map (fun i => (pm >>> (5 * (5 - i))) &&& 31)

/-- 8-bit to 5-bit regrouping (`convert_bits(.., 8, 5, true)`): the
accumulator always holds fewer than five pending bits. -/
def toBase32Aux (acc bits : Nat) : List Nat → List Nat
  | [] => if bits = 0 then [] else [(acc <<< (5 - bits)) &&& 31]
  | b :: rest =>
      let acc' := (acc <<< 8) ||| b
      let bits' := bits + 8
      if 10 ≤ bits' then
        ((acc' >>> (bits' - 5)) &&& 31) :: ((acc' >>> (bits' - 10)) &&& 31) ::
          toBase32Aux (acc' &&& (2 ^ (bits' - 10) - 1)) (bits' - 10) rest
      else
        ((acc' >>> (bits' - 5)) &&& 31) ::
          toBase32Aux (acc' &&& (2 ^ (bits' - 5) - 1)) (bits' - 5) rest

/-- `hash160.to_base32()`. -/
def toBase32 (bytes : List Nat) : List Nat := toBase32Aux 0 0 bytes

/-- `bech32::encode(hrp, data, Variant::Bech32)`: validate the
human-readable part (non-empty, at most 83 characters, ASCII 33..126,
no mixed case), lower-case it, and assemble the string. -/
def bech32_encode (hrp : String) (data : List Nat) : Except String String :=
  if hrp.data.length < 1 ∨ 83 < hrp.data.length then
    .error "Bech32 encode error: invalid length"
  else if ¬ (hrp.data.all (fun c => 33 ≤ c.toNat && c.toNat ≤ 126)) then
    .error "Bech32 encode error: invalid character"
  else if (hrp.data.any Char.isLower) ∧ (hrp.data.any Char.isUpper) then
    .error "Bech32 encode error: mixed-case hrp"
  else
    let hrpL := hrp.data.map Char.toLower
    .ok ⟨hrpL ++ '1' ::
          (data ++ bech32CreateChecksum hrpL data).map
            (fun d => bech32Charset.getD d '?')⟩

/-- Bech32 human-readable part per network (src/crypto.rs:164). -/
def bech32Hrp : BitcoinClientType → String
  | .Mainnet => "bc"
  | .Testnet | .Signet => "tb"
  | .Regtest => "bcrt"

/-- `BitcoinCrypto::hash160_to_bech32_address` (src/crypto.rs:160): the
20 bytes are regrouped to 5-bit values and encoded directly — no
witness version value is prepended. -/
def hash160_to_bech32_address (hash160 : List Nat) (t : BitcoinClientType) :
    Except String String :=
  bech32_encode (bech32Hrp t) (toBase32 hash160)

/-- Modelled from the spec: the address `hash160ToBech32` is documented
to produce, namely the bech32 encoding of a witness version 0 program —
the 5-bit value 0 followed by the regrouped 20 bytes of the hash. -/
def specHash160ToBech32WitnessV0 (hash160 : List Nat) (t : BitcoinClientType) :
    Except String String :=
  bech32_encode (bech32Hrp t) (0 :: toBase32 hash160)

/-! ## Monad-bind computation rules -/

theorem except_bind_ok {ε α β : Type} (a : α) (f : α → Except ε β) :
    ((Except.ok a : Except ε α) >>= f) = f a := rfl

theorem except_bind_err {ε α β : Type} (e : ε) (f : α → Except ε β) :
    ((Except.error e : Except ε α) >>= f) = .error e := rfl

theorem option_bind_some {α β : Type} (a : α) (f : α → Option β) :
    ((some a : Option α) >>= f) = f a := rfl

/-! ## Positional-numeral lemmas for the Base58 round trip -/

theorem foldl_base (b : Nat) (l : List Nat) (a : Nat) :
    l.foldl (fun x d => x * b + d) a = a * b ^ l.length + beVal b l := by
  induction l generalizing a with
  | nil => simp [beVal]
  | cons d t ih =>
      rw [List.foldl_cons, ih]
      have h2 : beVal b (d :: t) = d * b ^ t.length + beVal b t := by
        have h3 : beVal b (d :: t) = t.foldl (fun x d => x * b + d) (0 * b + d) :=
          rfl
        rw [h3, ih]
        ring
      rw [h2, List.length_cons]
      ring

theorem beVal_cons (b d : Nat) (t : List Nat) :
    beVal b (d :: t) = d * b ^ t.length + beVal b t := by
  have h := foldl_base b t d
  simpa [beVal] using h

theorem beVal_replicate_zero_append (b k : Nat) (l : List Nat) :
    beVal b (List.replicate k 0 ++ l) = beVal b l := by
  induction k with
  | zero => simp
  | succ k ih =>
      rw [List.replicate_succ, List.cons_append, beVal_cons, ih]
      simp

theorem beVal_replicate_zero (b k : Nat) :
    beVal b (List.replicate k 0) = 0 := by
  have h := beVal_replicate_zero_append b k []
  simpa [beVal] using h

theorem beVal_append_singleton (b d : Nat) (l : List Nat) :
    beVal b (l ++ [d]) = beVal b l * b + d := by
  simp [beVal, List.foldl_append]

theorem ofDigits_eq_beVal_reverse (b : Nat) (m : List Nat) :
    Nat.ofDigits b m = beVal b m.reverse := by
  induction m with
  | nil => simp [beVal]
  | cons d t ih =>
      rw [List.reverse_cons, beVal_append_singleton, ← ih, Nat.ofDigits_cons]
      ring

theorem countLeading0_nil : countLeading0 [] = 0 := rfl

theorem takeWhile_eq_replicate (l : List Nat) :
    l.takeWhile (· == 0) = List.replicate (countLeading0 l) 0 := by
  induction l with
  | nil => rfl
  | cons h t ih =>
      by_cases h0 : h = 0
      · subst h0
        simp [countLeading0, List.takeWhile_cons, List.replicate_succ] at ih ⊢
        exact ih
      · simp [countLeading0, List.takeWhile_cons, h0]

theorem dropWhile_cases (l : List Nat) :
    l.dropWhile (· == 0) = [] ∨
      ∃ h t, l.dropWhile (· == 0) = h :: t ∧ h ≠ 0 := by
  induction l with
  | nil => exact Or.inl rfl
  | cons a t ih =>
      by_cases h0 : a = 0
      · subst h0; simpa [List.dropWhile_cons] using ih
      · exact Or.inr ⟨a, t, by simp [List.dropWhile_cons, h0], h0⟩

theorem countLeading0_replicate_append_cons (k h : Nat) (t : List Nat)
    (hh : h ≠ 0) : countLeading0 (List.replicate k 0 ++ h :: t) = k := by
  induction k with
  | zero => simp [countLeading0, List.takeWhile_cons, hh]
  | succ k ih =>
      simp only [List.replicate_succ, List.cons_append, countLeading0,
        List.takeWhile_cons] at ih ⊢
      simpa [countLeading0] using ih

theorem countLeading0_replicate (k : Nat) :
    countLeading0 (List.replicate k 0) = k := by
  simp [countLeading0, List.takeWhile_replicate]

/-! ## Base58 round trip -/

instance {ε α : Type} [DecidableEq ε] [DecidableEq α] :
    DecidableEq (Except ε α) := fun x y => by
  cases x <;> cases y
  case error.error e f => exact decidable_of_iff (e = f) (by simp)
  case error.ok => exact isFalse (by simp)
  case ok.error => exact isFalse (by simp)
  case ok.ok a b => exact decidable_of_iff (a = b) (by simp)

/-- Unfolding equation for the Base58 encoder. -/
theorem bs58_encode_eq (p : List Nat) :
    bs58_encode p = ⟨List.replicate (countLeading0 p) '1' ++
      ((Nat.digits 58 (beVal 256 p)).reverse.map b58Char)⟩ := rfl

/-- Unfolding equation for the Base58 decoder on an explicit character list. -/
theorem bs58_decode_mk (l : List Char) :
    bs58_decode ⟨l⟩ = b58Vals l >>= fun vals =>
      .ok (List.replicate (countLeading0 vals) 0 ++
            (Nat.digits 256 (beVal 58 vals)).reverse) := rfl

theorem b58CharVal_b58Char : ∀ d < 58, b58CharVal (b58Char d) = .ok d := by
  decide

theorem b58Vals_map (l : List Nat) (h : ∀ d ∈ l, d < 58) :
    b58Vals (l.map b58Char) = .ok l := by
  induction l with
  | nil => rfl
  | cons d t ih =>
      have hd : d < 58 := h d (List.mem_cons_self d t)
      have ht : ∀ d ∈ t, d < 58 := fun x hx => h x (List.mem_cons_of_mem _ hx)
      simp only [List.map_cons, b58Vals, b58CharVal_b58Char d hd, ih ht,
        except_bind_ok]

theorem b58Char_zero : b58Char 0 = '1' := rfl

/-- Modelled decode is a left inverse of modelled encode on byte lists. -/
theorem bs58_decode_encode (p : List Nat) (hp : ∀ b ∈ p, b < 256) :
    bs58_decode (bs58_encode p) = .ok p := by
  obtain ⟨z, hz⟩ : ∃ z, countLeading0 p = z := ⟨_, rfl⟩
  have hsplit : p.takeWhile (· == 0) ++ p.dropWhile (· == 0) = p :=
    List.takeWhile_append_dropWhile _ _
  have htw : p.takeWhile (· == 0) = List.replicate z 0 := by
    rw [takeWhile_eq_replicate, hz]
  have hone : List.replicate z '1' = (List.replicate z 0).map b58Char := by
    simp [List.map_replicate, b58Char_zero]
  rcases dropWhile_cases p with hrest | ⟨h, t, hrest, hh⟩
  · -- all bytes are zero
    have hp0 : p = List.replicate z 0 := by
      rw [← hsplit, hrest, htw, List.append_nil]
    subst hp0
    rw [bs58_encode_eq, countLeading0_replicate, beVal_replicate_zero]
    rw [Nat.digits_zero, List.reverse_nil, List.map_nil, List.append_nil, hone,
      bs58_decode_mk]
    rw [b58Vals_map _ (fun d hd => by
      have := List.eq_of_mem_replicate hd; omega)]
    rw [except_bind_ok, countLeading0_replicate, beVal_replicate_zero]
    simp
  · -- some byte is non-zero
    have hp0 : p = List.replicate z 0 ++ h :: t := by rw [← hsplit, hrest, htw]
    have hmem : ∀ b ∈ h :: t, b < 256 := by
      intro b hb
      exact hp b (hp0 ▸ List.mem_append_right _ hb)
    have h1le : 1 ≤ h := Nat.one_le_iff_ne_zero.mpr hh
    have hpow : 1 ≤ 256 ^ t.length := Nat.one_le_pow _ _ (by norm_num)
    have hN : beVal 256 p = beVal 256 (h :: t) := by
      rw [hp0, beVal_replicate_zero_append]
    have hNpos : beVal 256 p ≠ 0 := by
      rw [hN, beVal_cons]
      have := Nat.mul_le_mul h1le hpow
      omega
    have hdig : Nat.digits 58 (beVal 256 p) ≠ [] :=
      Nat.digits_ne_nil_iff_ne_zero.mpr hNpos
    obtain ⟨d0, ds, hds⟩ : ∃ d0 ds,
        (Nat.digits 58 (beVal 256 p)).reverse = d0 :: ds := by
      rcases hrev : (Nat.digits 58 (beVal 256 p)).reverse with _ | ⟨d0, ds⟩
      · exact absurd (by simpa using congrArg List.reverse hrev) hdig
      · exact ⟨d0, ds, rfl⟩
    have hd0 : d0 ≠ 0 := by
      have hlast := Nat.getLast_digit_ne_zero 58 hNpos
      have h1 : (Nat.digits 58 (beVal 256 p)).getLast? = some d0 := by
        rw [← List.head?_reverse, hds, List.head?_cons]
      rw [List.getLast?_eq_getLast _ hdig] at h1
      have h2 : (Nat.digits 58 (beVal 256 p)).getLast hdig = d0 :=
        Option.some.inj h1
      rw [← h2]
      exact hlast
    have hd58 : ∀ d ∈ d0 :: ds, d < 58 := by
      intro d hd
      have hmem' : d ∈ (Nat.digits 58 (beVal 256 p)).reverse := hds ▸ hd
      exact Nat.digits_lt_base (by norm_num) (List.mem_reverse.mp hmem')
    rw [bs58_encode_eq, hz, hds, hone, ← List.map_append, bs58_decode_mk]
    rw [b58Vals_map _ (by
      intro d hd
      rcases List.mem_append.mp hd with hd | hd
      · have := List.eq_of_mem_replicate hd; omega
      · exact hd58 d hd)]
    rw [except_bind_ok, countLeading0_replicate_append_cons _ _ _ hd0,
      beVal_replicate_zero_append]
    have hvals : beVal 58 (d0 :: ds) = beVal 256 p := by
      rw [← hds, ← ofDigits_eq_beVal_reverse, Nat.ofDigits_digits]
    rw [hvals, hN]
    have hbe : beVal 256 (h :: t) = Nat.ofDigits 256 ((h :: t).reverse) := by
      rw [ofDigits_eq_beVal_reverse, List.reverse_reverse]
    have hlastrev : ∀ hne : (h :: t).reverse ≠ [],
        (h :: t).reverse.getLast hne ≠ 0 := by
      intro hne
      have h1 : ((h :: t).reverse).getLast? = some h := by
        rw [← List.head?_reverse ((h :: t).reverse), List.reverse_reverse,
          List.head?_cons]
      rw [List.getLast?_eq_getLast _ hne] at h1
      rw [Option.some.inj h1]
      exact hh
    rw [hbe, Nat.digits_ofDigits 256 (by norm_num) _
      (fun x hx => hmem x (List.mem_reverse.mp hx)) hlastrev]
    rw [List.reverse_reverse, ← hp0]

/-! ## Base58Check round trip -/

/-- Unfolding equation for `decode_base58check`. -/
theorem decode_base58check_eq (s : String) :
    decode_base58check s = bs58_decode s >>= fun decoded =>
      if decoded.length < 4 then .error "Data too short for checksum" else
      if decoded.drop (decoded.length - 4) ≠
          (double_sha256 (decoded.take (decoded.length - 4))).take 4 then
        .error "Checksum mismatch"
      else .ok (decoded.take (decoded.length - 4)) := rfl

/-- Shared helper: `decode_base58check` inverts `base58check_encode` on
any byte payload. -/
theorem decode_base58check_encode (p : List Nat) (hp : ∀ b ∈ p, b < 256) :
    decode_base58check (base58check_encode p) = .ok p := by
  have hck : ∀ b ∈ (double_sha256 p).take 4, b < 256 :=
    fun b hb => double_sha256_lt p b (List.mem_of_mem_take hb)
  have hall : ∀ b ∈ p ++ (double_sha256 p).take 4, b < 256 := by
    intro b hb
    rcases List.mem_append.mp hb with hb | hb
    · exact hp b hb
    · exact hck b hb
  have hlen4 : ((double_sha256 p).take 4).length = 4 := by
    rw [List.length_take, double_sha256_length]
    omega
  have h1 := bs58_decode_encode _ hall
  rw [base58check_encode, decode_base58check_eq, h1, except_bind_ok]
  have hlen : (p ++ (double_sha256 p).take 4).length = p.length + 4 := by
    rw [List.length_append, hlen4]
  rw [hlen, if_neg (by omega)]
  have hsub : p.length + 4 - 4 = p.length := by omega
  rw [hsub, List.take_left, List.drop_left, if_neg (by simp)]

/-! ## Claim theorems: Base58Check and WIF -/

/-- C9: for every byte sequence P (including the empty sequence),
`base58check_decode (base58check_encode P)` succeeds and returns
exactly P. -/
theorem c9_base58check_roundtrip (p : List Nat) (hp : ∀ b ∈ p, b < 256) :
    base58check_decode (base58check_encode p) = .ok p :=
  decode_base58check_encode p hp

/-- Witness for C9 at the concrete payload `[0, 1, 255]`. -/
theorem c9_base58check_roundtrip_witness :
    base58check_decode (base58check_encode [0, 1, 255]) = .ok [0, 1, 255] :=
  c9_base58check_roundtrip [0, 1, 255] (by decide)

/-- C5: a 32-byte scalar round-trips through
`private_key_to_wif _ true Mainnet` and `wif_to_private_key`. -/
theorem c5_wif_roundtrip (k : List Nat) (hk : k.length = 32)
    (hkb : ∀ b ∈ k, b < 256) :
    wif_to_private_key (private_key_to_wif k true .Mainnet) =
      .ok (k, true, .Mainnet) := by
  have hdata : ∀ b ∈ (0x80 : Nat) :: (k ++ [0x01]), b < 256 := by
    intro b hb
    rcases List.mem_cons.mp hb with rfl | hb
    · norm_num
    · rcases List.mem_append.mp hb with hb | hb
      · exact hkb b hb
      · simp at hb; omega
  have hdec : decode_base58check (private_key_to_wif k true .Mainnet) =
      .ok ((0x80 : Nat) :: (k ++ [0x01])) := by
    show decode_base58check (base58check_encode ((0x80 : Nat) :: (k ++ [0x01]))) = _
    exact decode_base58check_encode _ hdata
  have hlen : ((0x80 : Nat) :: (k ++ [0x01])).length = 34 := by
    simp [hk]
  have h33 : ((0x80 : Nat) :: (k ++ [0x01])).getD 33 0 = 1 := by
    rw [List.getD_cons_succ, List.getD_append_right _ _ _ _ (by omega : k.length ≤ 32),
      hk]
    rfl
  have htake : (k ++ [(0x01 : Nat)]).take 32 = k := List.take_left' hk
  simp only [wif_to_private_key, hdec, except_bind_ok, hlen, h33,
    List.getD_cons_zero, List.drop_succ_cons, List.drop_zero]
  norm_num [htake]

/-- Witness for C5 at the concrete 32-byte scalar of all 7 bytes. -/
theorem c5_wif_roundtrip_witness :
    wif_to_private_key (private_key_to_wif (List.replicate 32 7) true .Mainnet) =
      .ok (List.replicate 32 7, true, .Mainnet) :=
  c5_wif_roundtrip (List.replicate 32 7) (by decide) (by decide)

/-- C4 counterexample: the Base58Check encoding of the two-byte payload
`[0x80, 0x01]` decodes fine, has the WIF Mainnet version byte, yet
`wif_to_private_key` returns a 1-byte key, not a 32-byte one. -/
theorem c4_counterexample :
    decode_base58check (base58check_encode [0x80, 0x01]) = .ok [0x80, 0x01] ∧
    2 ≤ ([0x80, 0x01] : List Nat).length ∧
    ([0x80, 0x01] : List Nat).getD 0 0 = 0x80 ∧
    wif_to_private_key (base58check_encode [0x80, 0x01]) =
      .ok ([0x01], false, .Mainnet) ∧
    ([0x01] : List Nat).length ≠ 32 := by
  have hdec := decode_base58check_encode [0x80, 0x01] (by decide)
  refine ⟨hdec, by decide, by decide, ?_, by decide⟩
  simp only [wif_to_private_key, hdec, except_bind_ok]
  norm_num

/-- C4 (amended): when the Base58Check decode of the input succeeds with
a payload of at least 2 bytes whose first byte is 0x80 or 0xEF,
`wif_to_private_key` succeeds; the key it returns is the payload minus
the version byte and, in the 34-bytes-ending-in-0x01 compressed shape,
also minus the trailing compression byte — so it is 32 bytes exactly in
the compressed shape and payload length − 1 bytes otherwise. -/
theorem c4_wif_key_length (s : String) (p : List Nat)
    (hdec : decode_base58check s = .ok p) (hlen : 2 ≤ p.length)
    (hver : p.getD 0 0 = 0x80 ∨ p.getD 0 0 = 0xef) :
    ∃ k c n, wif_to_private_key s = .ok (k, c, n) ∧
      k = (if p.length = 34 ∧ p.getD 33 0 = 0x01 then (p.drop 1).take 32
           else p.drop 1) ∧
      k.length = if p.length = 34 ∧ p.getD 33 0 = 0x01 then 32
                 else p.length - 1 := by
  have hbool : ∀ c : Bool, c = (p.length == 34 && p.getD 33 0 == 0x01) →
      (c = true ↔ (p.length = 34 ∧ p.getD 33 0 = 0x01)) := by
    intro c hc
    by_cases hcp : p.length = 34 ∧ p.getD 33 0 = 0x01
    · have hct : c = true := by
        rw [hc, hcp.1, hcp.2]
        rfl
      exact iff_of_true hct hcp
    · have hcf : c = false := by
        rw [hc]
        rcases not_and_or.mp hcp with hne | hne
        · have hb : (p.length == 34) = false := by simpa using hne
          rw [hb, Bool.false_and]
        · have hb : (p.getD 33 0 == 0x01) = false := by simpa using hne
          rw [hb, Bool.and_false]
      exact iff_of_false (fun hct => Bool.false_ne_true (hcf ▸ hct)) hcp
  have hkeyeq : ∀ c : Bool, c = (p.length == 34 && p.getD 33 0 == 0x01) →
      (if c then (p.drop 1).take 32 else p.drop 1) =
        (if p.length = 34 ∧ p.getD 33 0 = 0x01 then (p.drop 1).take 32
         else p.drop 1) := by
    intro c hc
    by_cases hcp : p.length = 34 ∧ p.getD 33 0 = 0x01
    · rw [if_pos ((hbool c hc).mpr hcp), if_pos hcp]
    · have hcf : c ≠ true := fun hct => hcp ((hbool c hc).mp hct)
      rw [if_neg hcf, if_neg hcp]
  have hkeylen : ∀ c : Bool, c = (p.length == 34 && p.getD 33 0 == 0x01) →
      (if c then (p.drop 1).take 32 else p.drop 1).length =
        if p.length = 34 ∧ p.getD 33 0 = 0x01 then 32 else p.length - 1 := by
    intro c hc
    by_cases hcp : p.length = 34 ∧ p.getD 33 0 = 0x01
    · rw [if_pos ((hbool c hc).mpr hcp), if_pos hcp, List.length_take,
        List.length_drop, hcp.1]
      omega
    · have hcf : c ≠ true := fun hct => hcp ((hbool c hc).mp hct)
      rw [if_neg hcf, if_neg hcp, List.length_drop]
  simp only [wif_to_private_key, hdec, except_bind_ok]
  rcases hver with hver | hver
  · refine ⟨if p.length == 34 && p.getD 33 0 == 0x01 then (p.drop 1).take 32
        else p.drop 1,
      p.length == 34 && p.getD 33 0 == 0x01, .Mainnet, ?_, hkeyeq _ rfl,
      hkeylen _ rfl⟩
    rw [if_neg (by omega), if_pos hver]
  · have h80 : ¬ p.getD 0 0 = 0x80 := by omega
    refine ⟨if p.length == 34 && p.getD 33 0 == 0x01 then (p.drop 1).take 32
        else p.drop 1,
      p.length == 34 && p.getD 33 0 == 0x01, .Testnet, ?_, hkeyeq _ rfl,
      hkeylen _ rfl⟩
    rw [if_neg (by omega), if_neg h80, if_pos hver]

/-- Witness for C4 (amended) at a concrete uncompressed-shape payload of
10 bytes, whose key comes out as the 9 bytes after the version byte. -/
theorem c4_wif_key_length_witness :
    ∃ k c n, wif_to_private_key
        (base58check_encode (0x80 :: List.replicate 9 7)) = .ok (k, c, n) ∧
      k = (if (0x80 :: List.replicate 9 7).length = 34 ∧
            (0x80 :: List.replicate 9 7).getD 33 0 = 0x01 then
          ((0x80 :: List.replicate 9 7).drop 1).take 32
        else (0x80 :: List.replicate 9 7).drop 1) ∧
      k.length = if (0x80 :: List.replicate 9 7).length = 34 ∧
          (0x80 :: List.replicate 9 7).getD 33 0 = 0x01 then 32
        else (0x80 :: List.replicate 9 7).length - 1 :=
  c4_wif_key_length _ (0x80 :: List.replicate 9 7)
    (decode_base58check_encode _ (by decide)) (by decide) (Or.inl (by decide))

/-! ## Claim theorems: compact integers -/

/-- C8: `deserialize_varint` fails with the Empty error exactly on the
empty input, fails with each Insufficient error exactly when the first
byte is the corresponding marker and too few bytes follow, and accepts
the non-minimal encoding `[0xFD, 0x05, 0x00]` as `(5, 3)`. -/
theorem c8_varint_error_conditions (data : List Nat)
    (hb : ∀ b ∈ data, b < 256) :
    ((deserialize_varint data = .error "Empty data for varint") ↔ data = []) ∧
    ((deserialize_varint data = .error "Insufficient data for varint(16)") ↔
      (data.getD 0 0 = 0xFD ∧ data.length < 3)) ∧
    ((deserialize_varint data = .error "Insufficient data for varint(32)") ↔
      (data.getD 0 0 = 0xFE ∧ data.length < 5)) ∧
    ((deserialize_varint data = .error "Insufficient data for varint(64)") ↔
      (data.getD 0 0 = 0xFF ∧ data.length < 9)) ∧
    deserialize_varint [0xFD, 0x05, 0x00] = .ok (5, 3) := by
  cases data with
  | nil =>
      refine ⟨by simp [deserialize_varint], ?_, ?_, ?_, by decide⟩ <;>
        simp [deserialize_varint]
  | cons n rest =>
      have hn : n < 256 := hb n (List.mem_cons_self n rest)
      refine ⟨?_, ?_, ?_, ?_, by decide⟩ <;>
      · simp only [deserialize_varint, List.getD_cons_zero, List.length_cons]
        split_ifs <;> simp_all <;> omega

/-- Witness for C8 at the concrete input `[0xFE]`, which is the 32-bit
marker followed by nothing. -/
theorem c8_varint_error_conditions_witness :
    ((deserialize_varint [0xFE] = .error "Empty data for varint") ↔
      ([0xFE] : List Nat) = []) ∧
    ((deserialize_varint [0xFE] = .error "Insufficient data for varint(16)") ↔
      (([0xFE] : List Nat).getD 0 0 = 0xFD ∧ ([0xFE] : List Nat).length < 3)) ∧
    ((deserialize_varint [0xFE] = .error "Insufficient data for varint(32)") ↔
      (([0xFE] : List Nat).getD 0 0 = 0xFE ∧ ([0xFE] : List Nat).length < 5)) ∧
    ((deserialize_varint [0xFE] = .error "Insufficient data for varint(64)") ↔
      (([0xFE] : List Nat).getD 0 0 = 0xFF ∧ ([0xFE] : List Nat).length < 9)) ∧
    deserialize_varint [0xFD, 0x05, 0x00] = .ok (5, 3) :=
  c8_varint_error_conditions [0xFE] (by decide)

/-- C10: on a non-empty byte input the fallback arm of
`deserialize_varint` is unreachable: the function never returns the
"Invalid varint prefix" error. -/
theorem c10_fallback_unreachable (data : List Nat) (hne : data ≠ [])
    (hb : ∀ b ∈ data, b < 256) :
    deserialize_varint data ≠ .error "Invalid varint prefix" := by
  cases data with
  | nil => exact absurd rfl hne
  | cons n rest =>
      have hn : n < 256 := hb n (List.mem_cons_self n rest)
      simp only [deserialize_varint]
      split_ifs <;> first | (exfalso; omega) | simp

/-- Witness for C10 at the concrete input `[0]`. -/
theorem c10_fallback_unreachable_witness :
    deserialize_varint [0] ≠ .error "Invalid varint prefix" :=
  c10_fallback_unreachable [0] (by decide) (by decide)

/-! ## Claim theorems: Merkle root verification -/

/-- C2: on the empty transaction list the function compares the
expected root with the 64-character all-zero placeholder (the literal in
the source is exactly 64 characters, not 70 as the spec suspects). -/
theorem c2_empty_list_zero_placeholder (root : String) :
    verify_merkle_root [] root =
      some (decide (root.data = List.replicate 64 '0')) := by
  have hlit :
      ("0000000000000000000000000000000000000000000000000000000000000000" :
        String).data = List.replicate 64 '0' := by decide
  simp only [verify_merkle_root, List.isEmpty_nil, if_true, Option.some.injEq]
  by_cases h : root =
      "0000000000000000000000000000000000000000000000000000000000000000"
  · rw [h]
    simp [hlit]
  · have h2 : ¬ root.data = List.replicate 64 '0' := by
      rw [← hlit]
      exact fun hc => h (String.ext_iff.mpr hc)
    rw [beq_eq_false_iff_ne.mpr h, decide_eq_false h2]

/-- C1 evidence (code bug): on a transaction-hash list containing a
non-hex string the function hits `hex::decode(h).unwrap()` and panics
(modelled as `none`) instead of returning a boolean. -/
theorem c1_panics_on_invalid_hex : verify_merkle_root ["zz"] "00" = none := by
  decide

/-- Unfolding equation for `verify_merkle_root` on a non-empty list. -/
theorem verify_merkle_root_cons (h : String) (t : List String) (root : String) :
    verify_merkle_root (h :: t) root =
      (merkleLeaves (h :: t) >>= fun hashes =>
        (merkleLoop hashes).head? >>= fun cr =>
          some (hex_encode cr.reverse == root)) := rfl

theorem hexdigit_isSome :
    ∀ c ∈ ("0123456789abcdef" : String).data, (hexVal c).isSome = true := by
  decide

theorem hexPairs_of_valid : ∀ l : List Char,
    (∀ c ∈ l, (hexVal c).isSome) → l.length % 2 = 0 →
    ∃ bs, hexPairs l = some bs ∧ 2 * bs.length = l.length
  | [], _, _ => ⟨[], rfl, rfl⟩
  | [c], _, hl => by simp at hl
  | c1 :: c2 :: rest, h, hl => by
      obtain ⟨v1, hv1⟩ := Option.isSome_iff_exists.mp (h c1 (by simp))
      obtain ⟨v2, hv2⟩ := Option.isSome_iff_exists.mp (h c2 (by simp))
      obtain ⟨bs, hbs, hlen⟩ := hexPairs_of_valid rest
        (fun c hc => h c (by simp [hc]))
        (by simp only [List.length_cons] at hl ⊢; omega)
      refine ⟨(v1 * 16 + v2) :: bs, ?_, ?_⟩
      · simp [hexPairs, hv1, hv2, hbs]
      · simp only [List.length_cons]
        omega

/-- Any 64-character hex-digit string decodes to exactly 32 bytes. -/
theorem hex_decode_of_hex64 (s : String) (h1 : s.data.length = 64)
    (h2 : ∀ c ∈ s.data, c ∈ ("0123456789abcdef" : String).data) :
    ∃ bs, hex_decode s = some bs ∧ bs.length = 32 := by
  obtain ⟨bs, hbs, hlen⟩ := hexPairs_of_valid s.data
    (fun c hc => hexdigit_isSome c (h2 c hc)) (by rw [h1])
  exact ⟨bs, hbs, by rw [h1] at hlen; omega⟩

/-- C6: on three 64-character lowercase-hex leaves the odd leaf C is
duplicated and paired with itself: the verification succeeds exactly
when the expected root is the hex of the byte-reversal of
`dsha(dsha(a ++ b) ++ dsha(c ++ c))` over the byte-reversed leaves. -/
theorem c6_three_leaf_duplication (A B C R : String)
    (hA1 : A.data.length = 64)
    (hA2 : ∀ ch ∈ A.data, ch ∈ ("0123456789abcdef" : String).data)
    (hB1 : B.data.length = 64)
    (hB2 : ∀ ch ∈ B.data, ch ∈ ("0123456789abcdef" : String).data)
    (hC1 : C.data.length = 64)
    (hC2 : ∀ ch ∈ C.data, ch ∈ ("0123456789abcdef" : String).data) :
    ∃ a b c, hex_decode A = some a ∧ hex_decode B = some b ∧
      hex_decode C = some c ∧
      (verify_merkle_root [A, B, C] R = some true ↔
        R = hex_encode (double_sha256 (double_sha256 (a.reverse ++ b.reverse) ++
              double_sha256 (c.reverse ++ c.reverse))).reverse) := by
  obtain ⟨a, ha, hal⟩ := hex_decode_of_hex64 A hA1 hA2
  obtain ⟨b, hb, hbl⟩ := hex_decode_of_hex64 B hB1 hB2
  obtain ⟨c, hc, hcl⟩ := hex_decode_of_hex64 C hC1 hC2
  refine ⟨a, b, c, ha, hb, hc, ?_⟩
  have hla : merkleLeaf A = some a.reverse := by
    simp [merkleLeaf, ha, hal]
  have hlb : merkleLeaf B = some b.reverse := by
    simp [merkleLeaf, hb, hbl]
  have hlc : merkleLeaf C = some c.reverse := by
    simp [merkleLeaf, hc, hcl]
  have hlv : merkleLeaves [A, B, C] = some [a.reverse, b.reverse, c.reverse] := by
    simp [merkleLeaves, hla, hlb, hlc]
  have hloop : merkleLoop [a.reverse, b.reverse, c.reverse] =
      [double_sha256 (double_sha256 (a.reverse ++ b.reverse) ++
        double_sha256 (c.reverse ++ c.reverse))] := by
    rw [merkleLoop.eq_def, if_pos (by simp)]
    rw [show merkleStep [a.reverse, b.reverse, c.reverse] =
      [double_sha256 (a.reverse ++ b.reverse),
       double_sha256 (c.reverse ++ c.reverse)] from rfl]
    rw [merkleLoop.eq_def, if_pos (by simp)]
    rw [show merkleStep [double_sha256 (a.reverse ++ b.reverse),
        double_sha256 (c.reverse ++ c.reverse)] =
      [double_sha256 (double_sha256 (a.reverse ++ b.reverse) ++
        double_sha256 (c.reverse ++ c.reverse))] from rfl]
    rw [merkleLoop.eq_def, if_neg (by simp)]
  rw [verify_merkle_root_cons, hlv, option_bind_some, hloop]
  simp only [List.head?_cons, option_bind_some, Option.some.injEq]
  constructor
  · intro h
    exact (eq_of_beq h).symm
  · intro h
    rw [h]
    simp

/-- Witness for C6 at three concrete lowercase leaves. -/
theorem c6_three_leaf_duplication_witness :
    ∃ a b c,
      hex_decode
        "aaaaaaaaaaaaaaaaaaaaaaaaaaaaaaaaaaaaaaaaaaaaaaaaaaaaaaaaaaaaaaaa" =
        some a ∧
      hex_decode
        "bbbbbbbbbbbbbbbbbbbbbbbbbbbbbbbbbbbbbbbbbbbbbbbbbbbbbbbbbbbbbbbb" =
        some b ∧
      hex_decode
        "cccccccccccccccccccccccccccccccccccccccccccccccccccccccccccccccc" =
        some c ∧
      (verify_merkle_root
          ["aaaaaaaaaaaaaaaaaaaaaaaaaaaaaaaaaaaaaaaaaaaaaaaaaaaaaaaaaaaaaaaa",
           "bbbbbbbbbbbbbbbbbbbbbbbbbbbbbbbbbbbbbbbbbbbbbbbbbbbbbbbbbbbbbbbb",
           "cccccccccccccccccccccccccccccccccccccccccccccccccccccccccccccccc"]
          "00" = some true ↔
        "00" = hex_encode (double_sha256
          (double_sha256 (a.reverse ++ b.reverse) ++
            double_sha256 (c.reverse ++ c.reverse))).reverse) :=
  c6_three_leaf_duplication _ _ _ _ (by decide) (by decide) (by decide)
    (by decide) (by decide) (by decide)

/-! ## Claim theorems: Bech32 addresses -/

/-- For a valid, already-lower-case human-readable part the encoder
succeeds and assembles `hrp ++ "1" ++ data ++ checksum`. -/
theorem bech32_encode_valid (hrp : String) (data : List Nat)
    (h1 : ¬(hrp.data.length < 1 ∨ 83 < hrp.data.length))
    (h2 : hrp.data.all (fun c => 33 ≤ c.toNat && c.toNat ≤ 126))
    (h3 : ¬((hrp.data.any Char.isLower) ∧ (hrp.data.any Char.isUpper)))
    (h4 : hrp.data.map Char.toLower = hrp.data) :
    bech32_encode hrp data = .ok ⟨hrp.data ++ '1' ::
      (data ++ bech32CreateChecksum hrp.data data).map
        (fun d => bech32Charset.getD d '?')⟩ := by
  rw [bech32_encode, if_neg h1, if_neg (not_not_intro h2), if_neg h3, h4]

/-- C3 counterexample: at the all-zero 20-byte hash on Mainnet the
address the code builds differs from the spec-described witness
version 0 encoding (the code never prepends the version value 0). -/
theorem c3_counterexample :
    hash160_to_bech32_address (List.replicate 20 0) .Mainnet ≠
      specHash160ToBech32WitnessV0 (List.replicate 20 0) .Mainnet := by
  decide

/-- C3 (amended): for every network and 20-byte hash160, the address is
the original-variant bech32 string under that network's HRP whose data
part is exactly the 5-bit regrouping of the 20 bytes — with no witness
version value prepended. -/
theorem c3_bech32_data_part (t : BitcoinClientType) (h : List Nat)
    (_hlen : h.length = 20) :
    hash160_to_bech32_address h t = .ok ⟨(bech32Hrp t).data ++ '1' ::
      (toBase32 h ++ bech32CreateChecksum (bech32Hrp t).data (toBase32 h)).map
        (fun d => bech32Charset.getD d '?')⟩ := by
  cases t <;>
    exact bech32_encode_valid _ _ (by decide) (by decide) (by decide)
      (by decide)

/-- Witness for C3 (amended) at the all-zero hash on Testnet. -/
theorem c3_bech32_data_part_witness :
    hash160_to_bech32_address (List.replicate 20 0) .Testnet =
      .ok ⟨(bech32Hrp .Testnet).data ++ '1' ::
        (toBase32 (List.replicate 20 0) ++
          bech32CreateChecksum (bech32Hrp .Testnet).data
            (toBase32 (List.replicate 20 0))).map
          (fun d => bech32Charset.getD d '?')⟩ :=
  c3_bech32_data_part .Testnet (List.replicate 20 0) (by decide)

end BitcoinSdk
